import Mathlib

/-!
Shallow embedding of the g2g-scim-sync reconciliation engine
(`src/g2g_scim_sync/sync_engine.py`, with the record shapes from
`models.py` and `config.py`), together with theorems checking the
natural-language specification against it.

Python strings are embedded as Lean `String`; the string operations the
source uses (`str.split`, `str.replace`, `str.strip`, `str.lower`) are
embedded as explicit character-list recursions below, matching Python
semantics for single-character arguments.  Python `dict`s keyed by
strings are embedded as insertion-ordered association lists, and Python
`set`s of strings as duplicate-free insertion-ordered lists.  Fallible
collaborator calls (the Google and GitHub clients, which live outside
the reconciliation core) return `Except Exc` values; Python exception
classes become the constructors of `Exc`.
-/

namespace G2G

/-- Embedding of Python `s.split(sep)` for a single-character separator,
on the character list of the string: `''.split(x) == ['']`,
`'a@b'.split('@') == ['a', 'b']`. -/
def pyCharSplit (sep : Char) : List Char → List (List Char)
  | [] => [[]]
  | c :: rest =>
    if c = sep then [] :: pyCharSplit sep rest
    else
      match pyCharSplit sep rest with
      | [] => [[c]]
      | g :: gs => (c :: g) :: gs

/-- Embedding of Python `s.split(sep)` on `String`. -/
def pySplit (s : String) (sep : Char) : List String :=
  (pyCharSplit sep s.data).map (fun l => ⟨l⟩)

/-- Embedding of Python `s.replace(a, b)` for single-character `a`, `b`:
a character-wise map. -/
def pyReplaceChar (a b : Char) (s : String) : String :=
  ⟨s.data.map (fun c => if c = a then b else c)⟩

/-- Embedding of Python `s.strip(c)` for a single-character argument:
drop every leading and trailing occurrence of `c`. -/
def pyStrip (c : Char) (s : String) : String :=
  ⟨((s.data.dropWhile (· = c)).reverse.dropWhile (· = c)).reverse⟩

/-- Embedding of Python `s.lower()` (character-wise; the source only
lowercases ASCII organisational-unit names). -/
def pyLower (s : String) : String :=
  ⟨s.data.map Char.toLower⟩

/-- Exceptions of the source, as a closed taxonomy: the distinguishable
`GitHubScimNotSupportedException`, Python `ValueError`, and every other
`Exception` as an opaque fault carrying its message. -/
inductive Exc where
  | notSupported (msg : String)
  | valueError (msg : String)
  | otherExc (msg : String)
deriving DecidableEq

/-- Python `str(e)` on a caught exception: its message. -/
def Exc.message : Exc → String
  | .notSupported m => m
  | .valueError m => m
  | .otherExc m => m

/-- Google Workspace user (`models.py`, `GoogleUser`).  The engine never
reads the optional `last_login_time` / `creation_time` timestamps, so
they are omitted from the embedding. -/
structure GoogleUser where
  id : String
  primary_email : String
  given_name : String
  family_name : String
  full_name : String
  suspended : Bool
  org_unit_path : String
deriving DecidableEq

/-- Modelled from the spec: a single entry of a SCIM user's email list.
In the source each entry is a Python `dict` (`{'value': ..., 'primary':
..., 'type': ...}`); `models.py` under `src/` types the list only as
`list[dict]`.  Missing keys are embedded as `none`. -/
structure EmailEntry where
  value : String
  primary : Option Bool
  ty : Option String
deriving DecidableEq

/-- Modelled from the spec: the structured name `dict` of a SCIM user
(`givenName` / `familyName` / `formatted`), missing keys as `none`. -/
structure ScimName where
  givenName : Option String
  familyName : Option String
  formatted : Option String
deriving DecidableEq

/-- Modelled from the spec: one role-assignment entry
(`{'value': role, 'primary': True}`) as produced by
`_determine_user_roles`. -/
structure RoleEntry where
  value : String
  primary : Bool
deriving DecidableEq

/-- SCIM user for GitHub Enterprise (`models.py`, `ScimUser`).  The
`roles` field is modelled from the spec and the engine's own uses
(`_google_user_to_scim`, `_users_differ`): the copy of `models.py`
under `src/` predates it. -/
structure ScimUser where
  id : Option String
  user_name : String
  emails : List EmailEntry
  name : ScimName
  active : Bool
  external_id : Option String
  roles : List RoleEntry
deriving DecidableEq

/-- GitHub team (`models.py`, `GitHubTeam`).  The `id` is embedded as an
optional string (the SCIM group identifier the tests use). -/
structure GitHubTeam where
  id : Option String
  name : String
  slug : String
  description : Option String
  privacy : String
  members : List String
deriving DecidableEq

/-- Modelled from the spec: Google organisational unit as consumed by
`_calculate_team_diffs` (`GoogleOU` is absent from the copy of
`models.py` under `src/`; fields follow the engine's and tests' uses:
path, name, description, user count, member emails). -/
structure GoogleOU where
  org_unit_path : String
  name : String
  description : Option String
  user_count : Nat
  user_emails : List String
deriving DecidableEq

/-- Modelled from the spec: a computed user operation (`UserDiff`),
tagged by `action` with the optional source / existing / target
records, as constructed by `_calculate_user_diffs`. -/
structure UserDiff where
  action : String
  google_user : Option GoogleUser
  existing_scim_user : Option ScimUser
  target_scim_user : Option ScimUser
deriving DecidableEq

/-- Modelled from the spec: a computed team operation (`TeamDiff`). -/
structure TeamDiff where
  action : String
  google_ou : Option GoogleOU
  existing_team : Option GitHubTeam
  target_team : Option GitHubTeam
deriving DecidableEq

/-- Modelled from the spec: the per-run counters (`SyncStats`), all
starting at zero; field names follow the engine's increments. -/
structure SyncStats where
  users_skipped : Nat := 0
  users_to_create : Nat := 0
  users_to_update : Nat := 0
  users_to_suspend : Nat := 0
  users_up_to_date : Nat := 0
  users_created : Nat := 0
  users_updated : Nat := 0
  users_suspended : Nat := 0
  users_failed : Nat := 0
  teams_to_create : Nat := 0
  teams_to_update : Nat := 0
  teams_up_to_date : Nat := 0
  teams_created : Nat := 0
  teams_updated : Nat := 0
  teams_failed : Nat := 0
deriving DecidableEq

/-- Modelled from the spec: the result record `synchronize` returns
(success flag, the two diff lists, the run's stats, the dry-run flag,
optional error message). -/
structure SyncResult where
  success : Bool
  user_diffs : List UserDiff
  team_diffs : List TeamDiff
  stats : SyncStats
  dry_run : Bool
  error : Option String
deriving DecidableEq

/-- Synchronisation behaviour configuration (`config.py`,
`SyncConfig`). -/
structure SyncConfig where
  delete_suspended : Bool
  create_teams : Bool
  flatten_ous : Bool
deriving DecidableEq

/-- GitHub configuration as read by the engine.  The role tables and the
managed-username suffix are modelled from the spec (the copy of
`config.py` under `src/` predates them; the tests construct
`GitHubConfig` with the three role lists). -/
structure GitHubConfig where
  enterprise_owners : List String
  billing_managers : List String
  guest_collaborators : List String
  emu_username_suffix : Option String
deriving DecidableEq

/-- Mutating calls the engine makes against the GitHub client, recorded
for frame-effect reasoning.  Fetch calls are read-only and unrecorded. -/
inductive CallEvent where
  | createUser (u : ScimUser)
  | updateUser (id : Option String) (u : ScimUser)
  | suspendUser (id : Option String)
  | createGroup (t : GitHubTeam)
  | updateGroup (id : String) (t : GitHubTeam)
deriving DecidableEq

/-- Behaviour of the two external clients seen by one run: fetches
return data or raise, mutating calls succeed or raise.  The clients
themselves are outside the reconciliation core (`google_client.py`
holds only the Google fetches; the GitHub client is specified at its
interface boundary). -/
structure Clients where
  google_get_all_users : List String → List String → Except Exc (List GoogleUser)
  google_get_ou : String → Except Exc GoogleOU
  github_get_users : Except Exc (List ScimUser)
  github_get_groups : Except Exc (List GitHubTeam)
  github_create_user : ScimUser → Except Exc ScimUser
  github_update_user : Option String → ScimUser → Except Exc ScimUser
  github_suspend_user : Option String → Except Exc ScimUser
  github_create_group : GitHubTeam → Except Exc GitHubTeam
  github_update_group : String → GitHubTeam → Except Exc GitHubTeam

/-- Embedding of `SyncEngine._email_to_username`: local part of the
email (before the first `@`) with `.` replaced by `-`, then the
configured EMU suffix appended as `{username}_{suffix}` when present. -/
def emailToUsername (cfg : GitHubConfig) (email : String) : String :=
  let username := pyReplaceChar '.' '-' ((pySplit email '@').headD "")
  match cfg.emu_username_suffix with
  | some suffix => username ++ "_" ++ suffix
  | none => username

/-- Embedding of `SyncEngine._determine_user_roles`: first matching
role table wins, default role `user`. -/
def determineUserRoles (cfg : GitHubConfig) (email : String) : List RoleEntry :=
  if email ∈ cfg.enterprise_owners then
    [⟨"enterprise_owner", true⟩]
  else if email ∈ cfg.billing_managers then
    [⟨"billing_manager", true⟩]
  else if email ∈ cfg.guest_collaborators then
    [⟨"guest_collaborator", true⟩]
  else
    [⟨"user", true⟩]

/-- Embedding of `SyncEngine._google_user_to_scim`: one primary email
entry (no `type` key), the three name keys, active iff not suspended,
external id from the Google id, roles from the role tables. -/
def googleUserToScim (cfg : GitHubConfig) (user : GoogleUser) : ScimUser :=
  { id := none
    user_name := emailToUsername cfg user.primary_email
    emails := [⟨user.primary_email, some true, none⟩]
    name := ⟨some user.given_name, some user.family_name, some user.full_name⟩
    active := !user.suspended
    external_id := some user.id
    roles := determineUserRoles cfg user.primary_email }

/-- Embedding of `ScimUser.from_google_user` (`models.py`): username is
the raw local part of the email (no `.` → `-` replacement, no suffix),
one primary email entry carrying `'type': 'work'`, empty role list
(the `ScimUser` constructor's default). -/
def ScimUser.fromGoogleUser (user : GoogleUser) : ScimUser :=
  { id := none
    user_name := (pySplit user.primary_email '@').headD ""
    emails := [⟨user.primary_email, some true, some "work"⟩]
    name := ⟨some user.given_name, some user.family_name, some user.full_name⟩
    active := !user.suspended
    external_id := some user.id
    roles := [] }

/-- Embedding of `SyncEngine._users_differ`: fieldwise comparison of
username, email list, name, active flag and role list. -/
def usersDiffer (existing target : ScimUser) : Bool :=
  existing.user_name != target.user_name
    || existing.emails != target.emails
    || existing.name != target.name
    || existing.active != target.active
    || existing.roles != target.roles

/-- Python `set(xs) == set(ys)` on string lists: mutual containment. -/
def setEqStr (xs ys : List String) : Bool :=
  xs.all (fun x => ys.contains x) && ys.all (fun y => xs.contains y)

/-- Embedding of `SyncEngine._teams_differ`: name, description, and
member set (order-insensitive) comparison. -/
def teamsDiffer (existing target : GitHubTeam) : Bool :=
  existing.name != target.name
    || existing.description != target.description
    || !(setEqStr existing.members target.members)

/-- Embedding of `SyncEngine._get_primary_email`: value of the first
email entry whose `primary` key is truthy, else the value of the first
entry, else the empty string. -/
def getPrimaryEmail (user : ScimUser) : String :=
  match user.emails.find? (fun e => e.primary == some true) with
  | some e => e.value
  | none =>
    match user.emails with
    | [] => ""
    | e :: _ => e.value

/-- Embedding of `SyncEngine._ou_to_team_slug`: lowercase the OU name,
replace spaces and underscores with hyphens. -/
def ouToTeamSlug (ou : GoogleOU) : String :=
  pyReplaceChar '_' '-' (pyReplaceChar ' ' '-' (pyLower ou.name))

/-- Embedding of the dict comprehension
`{self._get_primary_email(user): user for user in github_users}`
followed by `.get(email)`: the last user with that primary email wins. -/
def githubUsersByEmail (github_users : List ScimUser) (email : String) : Option ScimUser :=
  github_users.foldl
    (fun acc user => if getPrimaryEmail user == email then some user else acc)
    none

/-- Emails of the Google users, embedding the set
`{user.primary_email for user in google_users}` (membership only). -/
def googleEmails (google_users : List GoogleUser) : List String :=
  google_users.map (·.primary_email)

/-- The `create` diff `_calculate_user_diffs` emits. -/
def mkCreateDiff (g : GoogleUser) (t : ScimUser) : UserDiff :=
  ⟨"create", some g, none, some t⟩

/-- The `update` diff `_calculate_user_diffs` emits. -/
def mkUpdateDiff (g : GoogleUser) (e : ScimUser) (t : ScimUser) : UserDiff :=
  ⟨"update", some g, some e, some t⟩

/-- The `suspend` diff `_calculate_user_diffs` emits. -/
def mkSuspendDiff (e : ScimUser) : UserDiff :=
  ⟨"suspend", none, some e, none⟩

/-- First phase of `_calculate_user_diffs`: walk the Google users,
emitting `create` for unmatched emails and `update` for matched users
that differ, counting up-to-date users otherwise. -/
def userCreateUpdatePhase (cfg : GitHubConfig) (github_users : List ScimUser) :
    List GoogleUser → List UserDiff × SyncStats → List UserDiff × SyncStats
  | [], acc => acc
  | g :: rest, (diffs, stats) =>
    match githubUsersByEmail github_users g.primary_email with
    | none =>
      userCreateUpdatePhase cfg github_users rest
        (diffs ++ [mkCreateDiff g (googleUserToScim cfg g)],
          { stats with users_to_create := stats.users_to_create + 1 })
    | some existing =>
      let target := googleUserToScim cfg g
      if usersDiffer existing target then
        userCreateUpdatePhase cfg github_users rest
          (diffs ++ [mkUpdateDiff g existing target],
            { stats with users_to_update := stats.users_to_update + 1 })
      else
        userCreateUpdatePhase cfg github_users rest
          (diffs, { stats with users_up_to_date := stats.users_up_to_date + 1 })

/-- Second phase of `_calculate_user_diffs`: walk the existing GitHub
users, emitting `suspend` for every active user whose primary email is
absent from the Google set. -/
def userSuspendPhase (gmails : List String) :
    List ScimUser → List UserDiff × SyncStats → List UserDiff × SyncStats
  | [], acc => acc
  | u :: rest, (diffs, stats) =>
    if !gmails.contains (getPrimaryEmail u) && u.active then
      userSuspendPhase gmails rest
        (diffs ++ [mkSuspendDiff u],
          { stats with users_to_suspend := stats.users_to_suspend + 1 })
    else
      userSuspendPhase gmails rest (diffs, stats)

/-- Embedding of `SyncEngine._calculate_user_diffs`: the create/update
phase over the Google users followed by the suspend phase over the
GitHub users, threading the stats counters. -/
def calculateUserDiffs (cfg : GitHubConfig) (stats : SyncStats)
    (google_users : List GoogleUser) (github_users : List ScimUser) :
    List UserDiff × SyncStats :=
  let acc := userCreateUpdatePhase cfg github_users google_users ([], stats)
  userSuspendPhase (googleEmails google_users) github_users acc

/-- Embedding of the dict comprehension
`{team.slug: team for team in github_teams}` followed by `.get(slug)`. -/
def githubTeamsBySlug (github_teams : List GitHubTeam) (slug : String) : Option GitHubTeam :=
  github_teams.foldl
    (fun acc team => if team.slug == slug then some team else acc)
    none

/-- Slugification of one OU path segment in
`_calculate_flattened_team_diffs`:
`segment.lower().replace(' ', '-').replace('_', '-')`. -/
def slugifySegment (segment : String) : String :=
  pyReplaceChar '_' '-' (pyReplaceChar ' ' '-' (pyLower segment))

/-- Path segments of a user's OU path:
`user.org_unit_path.strip('/').split('/')`. -/
def pathSegments (user : GoogleUser) : List String :=
  pySplit (pyStrip '/' user.org_unit_path) '/'

/-- Non-root segments (`for i in range(1, len(path_segments))`). -/
def nonRootSegments (user : GoogleUser) : List String :=
  (pathSegments user).drop 1

/-- Slugified non-root segments of one user's path. -/
def userTeamSlugs (user : GoogleUser) : List String :=
  (nonRootSegments user).map slugifySegment

/-- Adding one username to one slug's member set in the
`team_memberships` dict: insertion-ordered association list, member
lists duplicate-free in insertion order (embedding a dict of sets). -/
def addMembership : List (String × List String) → String → String → List (String × List String)
  | [], slug, username => [(slug, [username])]
  | (s, mems) :: rest, slug, username =>
    if s = slug then
      (s, if mems.contains username then mems else mems ++ [username]) :: rest
    else
      (s, mems) :: addMembership rest slug username

/-- The `team_memberships` map of `_calculate_flattened_team_diffs`:
for each user, each slugified non-root segment of its path gains the
user's mapped username. -/
def teamMembershipsOf (cfg : GitHubConfig) (users : List GoogleUser) :
    List (String × List String) :=
  users.foldl
    (fun m u =>
      (userTeamSlugs u).foldl
        (fun acc slug => addMembership acc slug (emailToUsername cfg u.primary_email))
        m)
    []

/-- The target team `_calculate_flattened_team_diffs` builds for one
membership entry. -/
def flattenedTargetTeam (slug : String) (members : List String) : GitHubTeam :=
  { id := none
    name := slug
    slug := slug
    description := some ("Team for " ++ pyReplaceChar '-' ' ' slug ++ " OU")
    privacy := "closed"
    members := members }

/-- Diff-emission loop of `_calculate_flattened_team_diffs` over the
membership map (create when the slug is unknown and team creation is
enabled, update when the existing team differs; no up-to-date counter
in this variant). -/
def flattenedDiffLoop (sc : SyncConfig) (github_teams : List GitHubTeam) :
    List (String × List String) → List TeamDiff × SyncStats → List TeamDiff × SyncStats
  | [], acc => acc
  | (slug, members) :: rest, (diffs, stats) =>
    let target := flattenedTargetTeam slug members
    match githubTeamsBySlug github_teams slug with
    | none =>
      if sc.create_teams then
        flattenedDiffLoop sc github_teams rest
          (diffs ++ [⟨"create", none, none, some target⟩],
            { stats with teams_to_create := stats.teams_to_create + 1 })
      else
        flattenedDiffLoop sc github_teams rest (diffs, stats)
    | some existing =>
      if teamsDiffer existing target then
        flattenedDiffLoop sc github_teams rest
          (diffs ++ [⟨"update", none, some existing, some target⟩],
            { stats with teams_to_update := stats.teams_to_update + 1 })
      else
        flattenedDiffLoop sc github_teams rest (diffs, stats)

/-- Embedding of `SyncEngine._calculate_flattened_team_diffs`. -/
def calculateFlattenedTeamDiffs (sc : SyncConfig) (cfg : GitHubConfig)
    (stats : SyncStats) (google_users : List GoogleUser)
    (github_teams : List GitHubTeam) : List TeamDiff × SyncStats :=
  flattenedDiffLoop sc github_teams (teamMembershipsOf cfg google_users) ([], stats)

/-- Embedding of the `user_email_to_username` dict of
`_calculate_team_diffs` followed by `.get(email)`. -/
def userEmailToUsername (cfg : GitHubConfig) (google_users : List GoogleUser)
    (email : String) : Option String :=
  google_users.foldl
    (fun acc u =>
      if u.primary_email == email then some (emailToUsername cfg u.primary_email) else acc)
    none

/-- Member resolution of `_calculate_team_diffs`: look each OU member
email up in the username map, keeping only truthy (non-empty) hits. -/
def ouGithubMembers (cfg : GitHubConfig) (google_users : List GoogleUser)
    (emails : List String) : List String :=
  emails.foldl
    (fun acc email =>
      match userEmailToUsername cfg google_users email with
      | some username => if username == "" then acc else acc ++ [username]
      | none => acc)
    []

/-- Diff-emission loop of `_calculate_team_diffs` over the Google OUs. -/
def teamDiffLoop (sc : SyncConfig) (cfg : GitHubConfig)
    (github_teams : List GitHubTeam) (google_users : List GoogleUser) :
    List GoogleOU → List TeamDiff × SyncStats → List TeamDiff × SyncStats
  | [], acc => acc
  | ou :: rest, (diffs, stats) =>
    let team_slug := ouToTeamSlug ou
    let target : GitHubTeam :=
      { id := none
        name := team_slug
        slug := team_slug
        description := ou.description
        privacy := "closed"
        members := ouGithubMembers cfg google_users ou.user_emails }
    match githubTeamsBySlug github_teams team_slug with
    | none =>
      if sc.create_teams then
        teamDiffLoop sc cfg github_teams google_users rest
          (diffs ++ [⟨"create", some ou, none, some target⟩],
            { stats with teams_to_create := stats.teams_to_create + 1 })
      else
        teamDiffLoop sc cfg github_teams google_users rest (diffs, stats)
    | some existing =>
      if teamsDiffer existing target then
        teamDiffLoop sc cfg github_teams google_users rest
          (diffs ++ [⟨"update", some ou, some existing, some target⟩],
            { stats with teams_to_update := stats.teams_to_update + 1 })
      else
        teamDiffLoop sc cfg github_teams google_users rest
          (diffs, { stats with teams_up_to_date := stats.teams_up_to_date + 1 })

/-- Embedding of `SyncEngine._calculate_team_diffs`. -/
def calculateTeamDiffs (sc : SyncConfig) (cfg : GitHubConfig) (stats : SyncStats)
    (google_ous : List GoogleOU) (github_teams : List GitHubTeam)
    (google_users : List GoogleUser) : List TeamDiff × SyncStats :=
  teamDiffLoop sc cfg github_teams google_users google_ous ([], stats)

/-- Embedding of Python `str(x)` on an optional string id
(`str(diff.existing_team.id)`): `str(None)` is the literal `"None"`. -/
def pyStrOfOptId : Option String → String
  | some s => s
  | none => "None"

/-- One iteration of the `_apply_user_changes` loop: the branch taken,
the collaborator call made (recorded even when it faults), and the
counter incremented; a fault increments `users_failed` and the loop
moves on. -/
def applyUserStep (clients : Clients) (stats : SyncStats) (d : UserDiff) :
    SyncStats × List CallEvent :=
  if d.action == "create" && d.target_scim_user.isSome then
    match d.target_scim_user with
    | some t =>
      match clients.github_create_user t with
      | .ok _ => ({ stats with users_created := stats.users_created + 1 }, [.createUser t])
      | .error _ => ({ stats with users_failed := stats.users_failed + 1 }, [.createUser t])
    | none => (stats, [])
  else if d.action == "update" && d.existing_scim_user.isSome && d.target_scim_user.isSome then
    match d.existing_scim_user, d.target_scim_user with
    | some e, some t =>
      match clients.github_update_user e.id t with
      | .ok _ => ({ stats with users_updated := stats.users_updated + 1 }, [.updateUser e.id t])
      | .error _ => ({ stats with users_failed := stats.users_failed + 1 }, [.updateUser e.id t])
    | _, _ => (stats, [])
  else if d.action == "suspend" && d.existing_scim_user.isSome then
    match d.existing_scim_user with
    | some e =>
      match clients.github_suspend_user e.id with
      | .ok _ => ({ stats with users_suspended := stats.users_suspended + 1 }, [.suspendUser e.id])
      | .error _ => ({ stats with users_failed := stats.users_failed + 1 }, [.suspendUser e.id])
    | none => (stats, [])
  else
    (stats, [])

/-- Embedding of `SyncEngine._apply_user_changes`: every operation is
processed in order; a per-operation `try`/`except` turns a fault into a
`users_failed` increment and the batch continues. -/
def applyUserChanges (clients : Clients) (stats : SyncStats) :
    List UserDiff → SyncStats × List CallEvent
  | [] => (stats, [])
  | d :: rest =>
    let (stats1, events) := applyUserStep clients stats d
    let (stats2, more) := applyUserChanges clients stats1 rest
    (stats2, events ++ more)

/-- One iteration of the `_apply_team_changes` loop.  Both `except`
clauses (the distinguishable not-supported condition and any other
fault) increment `teams_failed` and let the loop continue. -/
def applyTeamStep (clients : Clients) (stats : SyncStats) (d : TeamDiff) :
    SyncStats × List CallEvent :=
  if d.action == "create" && d.target_team.isSome then
    match d.target_team with
    | some t =>
      match clients.github_create_group t with
      | .ok _ => ({ stats with teams_created := stats.teams_created + 1 }, [.createGroup t])
      | .error (.notSupported _) =>
        ({ stats with teams_failed := stats.teams_failed + 1 }, [.createGroup t])
      | .error _ => ({ stats with teams_failed := stats.teams_failed + 1 }, [.createGroup t])
    | none => (stats, [])
  else if d.action == "update" && d.existing_team.isSome && d.target_team.isSome then
    match d.existing_team, d.target_team with
    | some e, some t =>
      match clients.github_update_group (pyStrOfOptId e.id) t with
      | .ok _ =>
        ({ stats with teams_updated := stats.teams_updated + 1 },
          [.updateGroup (pyStrOfOptId e.id) t])
      | .error (.notSupported _) =>
        ({ stats with teams_failed := stats.teams_failed + 1 },
          [.updateGroup (pyStrOfOptId e.id) t])
      | .error _ =>
        ({ stats with teams_failed := stats.teams_failed + 1 },
          [.updateGroup (pyStrOfOptId e.id) t])
    | _, _ => (stats, [])
  else
    (stats, [])

/-- Embedding of `SyncEngine._apply_team_changes`: every operation is
processed in order; the not-supported condition is caught inside the
loop, so the batch continues past it. -/
def applyTeamChanges (clients : Clients) (stats : SyncStats) :
    List TeamDiff → SyncStats × List CallEvent
  | [] => (stats, [])
  | d :: rest =>
    let (stats1, events) := applyTeamStep clients stats d
    let (stats2, more) := applyTeamChanges clients stats1 rest
    (stats2, events ++ more)

/-- Embedding of `SyncEngine._preview_user_changes`: the dry-run
rendering of the user operation list, one descriptive line per
operation with the needed record present. -/
def previewUserChanges (user_diffs : List UserDiff) : List String :=
  user_diffs.filterMap fun d =>
    if d.action == "create" then
      d.google_user.map (fun g => "CREATE: " ++ g.primary_email)
    else if d.action == "update" then
      d.google_user.map (fun g => "UPDATE: " ++ g.primary_email)
    else if d.action == "suspend" then
      d.existing_scim_user.map (fun e => "SUSPEND: " ++ e.user_name)
    else
      none

/-- Embedding of `SyncEngine._preview_team_changes`. -/
def previewTeamChanges (team_diffs : List TeamDiff) : List String :=
  team_diffs.filterMap fun d =>
    if d.action == "create" then
      d.target_team.map (fun t => "CREATE TEAM: " ++ t.name)
    else if d.action == "update" then
      d.target_team.map (fun t => "UPDATE TEAM: " ++ t.name)
    else
      none

/-- Embedding of `SyncEngine._should_sync_user`: always `true`. -/
def shouldSyncUser (_user : GoogleUser) : Bool :=
  true

/-- Filtering step of `_get_google_users`: keep users passing
`_should_sync_user`, counting the rest as skipped. -/
def filterSyncUsers (stats : SyncStats) :
    List GoogleUser → List GoogleUser × SyncStats
  | [] => ([], stats)
  | u :: rest =>
    if shouldSyncUser u then
      let (l, s) := filterSyncUsers stats rest
      (u :: l, s)
    else
      filterSyncUsers { stats with users_skipped := stats.users_skipped + 1 } rest

/-- Embedding of `SyncEngine._get_google_ous`: fetch each OU path,
skipping (only) `ValueError` failures; any other fault propagates. -/
def getGoogleOus (clients : Clients) :
    List String → List GoogleOU → Except Exc (List GoogleOU)
  | [], acc => .ok acc
  | p :: rest, acc =>
    match clients.google_get_ou p with
    | .ok ou => getGoogleOus clients rest (acc ++ [ou])
    | .error (.valueError _) => getGoogleOus clients rest acc
    | .error e => .error e

/-- Embedding of `SyncEngine.synchronize`: scope validation, the two
fetches, user diff and apply/preview, then the optional team phase
(with its inner handler for the not-supported condition), all wrapped
in the boundary handler that converts any escaped fault into a failure
result carrying the accumulated stats.  Returns the result together
with the list of mutating GitHub calls the run performed. -/
def synchronize (clients : Clients) (sc : SyncConfig) (cfg : GitHubConfig)
    (ou_paths individual_users : List String) (dry_run : Bool) :
    SyncResult × List CallEvent :=
  let stats0 : SyncStats := {}
  if ou_paths.isEmpty && individual_users.isEmpty then
    ({ success := false, user_diffs := [], team_diffs := [], stats := stats0,
       dry_run := dry_run,
       error := some "No OUs or individual users specified for synchronization" }, [])
  else
    match clients.google_get_all_users ou_paths individual_users with
    | .error e =>
      ({ success := false, user_diffs := [], team_diffs := [], stats := stats0,
         dry_run := dry_run, error := some e.message }, [])
    | .ok raw_users =>
      let fres := filterSyncUsers stats0 raw_users
      let google_users := fres.1
      let stats1 := fres.2
      match clients.github_get_users with
      | .error e =>
        ({ success := false, user_diffs := [], team_diffs := [], stats := stats1,
           dry_run := dry_run, error := some e.message }, [])
      | .ok github_users =>
        let cres := calculateUserDiffs cfg stats1 google_users github_users
        let user_diffs := cres.1
        let stats2 := cres.2
        let ares := if dry_run then (stats2, []) else applyUserChanges clients stats2 user_diffs
        let stats3 := ares.1
        let ulog := ares.2
        if sc.create_teams then
          match clients.github_get_groups with
          | .error (.notSupported _) =>
            ({ success := true, user_diffs := user_diffs, team_diffs := [],
               stats := stats3, dry_run := dry_run, error := none }, ulog)
          | .error e =>
            ({ success := false, user_diffs := [], team_diffs := [], stats := stats3,
               dry_run := dry_run, error := some e.message }, ulog)
          | .ok github_teams =>
            if sc.flatten_ous then
              let tres := calculateFlattenedTeamDiffs sc cfg stats3 google_users github_teams
              let team_diffs := tres.1
              let stats4 := tres.2
              let tares := if dry_run then (stats4, []) else applyTeamChanges clients stats4 team_diffs
              let stats5 := tares.1
              let tlog := tares.2
              ({ success := true, user_diffs := user_diffs, team_diffs := team_diffs,
                 stats := stats5, dry_run := dry_run, error := none }, ulog ++ tlog)
            else
              match getGoogleOus clients ou_paths [] with
              | .error (.notSupported _) =>
                ({ success := true, user_diffs := user_diffs, team_diffs := [],
                   stats := stats3, dry_run := dry_run, error := none }, ulog)
              | .error e =>
                ({ success := false, user_diffs := [], team_diffs := [], stats := stats3,
                   dry_run := dry_run, error := some e.message }, ulog)
              | .ok google_ous =>
                let tres := calculateTeamDiffs sc cfg stats3 google_ous github_teams google_users
                let team_diffs := tres.1
                let stats4 := tres.2
                let tares := if dry_run then (stats4, []) else applyTeamChanges clients stats4 team_diffs
                let stats5 := tares.1
                let tlog := tares.2
                ({ success := true, user_diffs := user_diffs, team_diffs := team_diffs,
                   stats := stats5, dry_run := dry_run, error := none }, ulog ++ tlog)
        else
          ({ success := true, user_diffs := user_diffs, team_diffs := [], stats := stats3,
             dry_run := dry_run, error := none }, ulog)

/-! Helper lemmas about the user diff calculator. -/

/-- Diffs one source user contributes in the create/update phase. -/
def stepDiffs (cfg : GitHubConfig) (github_users : List ScimUser) (g : GoogleUser) :
    List UserDiff :=
  match githubUsersByEmail github_users g.primary_email with
  | none => [mkCreateDiff g (googleUserToScim cfg g)]
  | some existing =>
    if usersDiffer existing (googleUserToScim cfg g) then
      [mkUpdateDiff g existing (googleUserToScim cfg g)]
    else
      []

theorem userCreateUpdatePhase_fst (cfg : GitHubConfig) (ghs : List ScimUser) :
    ∀ (gs : List GoogleUser) (diffs : List UserDiff) (stats : SyncStats),
      (userCreateUpdatePhase cfg ghs gs (diffs, stats)).1
        = diffs ++ gs.flatMap (stepDiffs cfg ghs) := by
  intro gs
  induction gs with
  | nil => intro diffs stats; simp [userCreateUpdatePhase]
  | cons g rest ih =>
    intro diffs stats
    simp only [userCreateUpdatePhase, stepDiffs, List.flatMap_cons]
    cases h : githubUsersByEmail ghs g.primary_email with
    | none => dsimp only; rw [ih]; simp
    | some existing =>
      dsimp only
      by_cases hd : usersDiffer existing (googleUserToScim cfg g) = true
      · rw [if_pos hd, if_pos hd, ih]; simp
      · rw [if_neg hd, if_neg hd, ih]; simp

theorem userSuspendPhase_fst (gmails : List String) :
    ∀ (us : List ScimUser) (diffs : List UserDiff) (stats : SyncStats),
      (userSuspendPhase gmails us (diffs, stats)).1
        = diffs
            ++ (us.filter
                  (fun u => !gmails.contains (getPrimaryEmail u) && u.active)).map
                mkSuspendDiff := by
  intro us
  induction us with
  | nil => intro diffs stats; simp [userSuspendPhase]
  | cons u rest ih =>
    intro diffs stats
    simp only [userSuspendPhase]
    by_cases h : (!gmails.contains (getPrimaryEmail u) && u.active) = true
    · rw [if_pos h, ih, List.filter_cons, if_pos h]; simp
    · rw [if_neg h, ih, List.filter_cons, if_neg h]

theorem calculateUserDiffs_fst (cfg : GitHubConfig) (stats : SyncStats)
    (gs : List GoogleUser) (ghs : List ScimUser) :
    (calculateUserDiffs cfg stats gs ghs).1
      = gs.flatMap (stepDiffs cfg ghs)
          ++ (ghs.filter
                (fun u => !(googleEmails gs).contains (getPrimaryEmail u) && u.active)).map
              mkSuspendDiff := by
  show (userSuspendPhase (googleEmails gs) ghs
          (userCreateUpdatePhase cfg ghs gs ([], stats))).1 = _
  cases hcu : userCreateUpdatePhase cfg ghs gs ([], stats) with
  | mk d1 s1 =>
    have h1 : d1 = gs.flatMap (stepDiffs cfg ghs) := by
      have := userCreateUpdatePhase_fst cfg ghs gs [] stats
      rw [hcu] at this
      simpa using this
    rw [userSuspendPhase_fst, h1]

/-- Every diff of the create/update phase carries the source user it
came from and is tagged `create` or `update`. -/
theorem stepDiffs_shape (cfg : GitHubConfig) (ghs : List ScimUser) (g : GoogleUser) :
    ∀ d ∈ stepDiffs cfg ghs g,
      d.google_user = some g ∧ (d.action = "create" ∨ d.action = "update") := by
  intro d hd
  unfold stepDiffs at hd
  split at hd
  · simp only [List.mem_singleton] at hd
    subst hd
    exact ⟨rfl, Or.inl rfl⟩
  · split at hd
    · simp only [List.mem_singleton] at hd
      subst hd
      exact ⟨rfl, Or.inr rfl⟩
    · cases hd

/-- C1 helper: membership in the suspend tail. -/
theorem mem_suspend_tail {gs : List GoogleUser} {ghs : List ScimUser} {u : ScimUser}
    (hu : u ∈ ghs)
    (hq : (!(googleEmails gs).contains (getPrimaryEmail u) && u.active) = true)
    (cfg : GitHubConfig) (stats : SyncStats) :
    mkSuspendDiff u ∈ (calculateUserDiffs cfg stats gs ghs).1 := by
  rw [calculateUserDiffs_fst]
  refine List.mem_append_right _ ?_
  exact List.mem_map_of_mem _ (List.mem_filter.mpr ⟨hu, hq⟩)

/-- Claim C1: the suspend operations the user diff emits are exactly
one per existing target user whose primary email is absent from the
source users' primary emails and whose active flag is true, in target
order; inactive target users yield none, so re-running on inputs where
the orphans are already inactive produces no suspend operations. -/
theorem calculateUserDiffs_suspend_exact (cfg : GitHubConfig) (stats : SyncStats)
    (gs : List GoogleUser) (ghs : List ScimUser) :
    (calculateUserDiffs cfg stats gs ghs).1.filter (fun d => d.action == "suspend")
      = (ghs.filter
            (fun u => !(googleEmails gs).contains (getPrimaryEmail u) && u.active)).map
          mkSuspendDiff := by
  rw [calculateUserDiffs_fst, List.filter_append]
  have h1 : (gs.flatMap (stepDiffs cfg ghs)).filter (fun d => d.action == "suspend") = [] := by
    rw [List.filter_eq_nil_iff]
    intro d hd
    rw [List.mem_flatMap] at hd
    obtain ⟨g, _, hdg⟩ := hd
    rcases (stepDiffs_shape cfg ghs g d hdg).2 with h | h <;> simp [h]
  have h2 : ∀ (l : List ScimUser),
      (l.map mkSuspendDiff).filter (fun d => d.action == "suspend") = l.map mkSuspendDiff := by
    intro l
    rw [List.filter_eq_self]
    intro d hd
    rw [List.mem_map] at hd
    obtain ⟨u, _, rfl⟩ := hd
    rfl
  rw [h1, h2]
  rfl

/-- Matched-and-equal predicate for one source user: an existing target
user shares its primary email and no compared field differs. -/
def matchedUpToDate (cfg : GitHubConfig) (ghs : List ScimUser) (g : GoogleUser) : Bool :=
  match githubUsersByEmail ghs g.primary_email with
  | some existing => !usersDiffer existing (googleUserToScim cfg g)
  | none => false

theorem userCreateUpdatePhase_upToDate (cfg : GitHubConfig) (ghs : List ScimUser) :
    ∀ (gs : List GoogleUser) (diffs : List UserDiff) (stats : SyncStats),
      (userCreateUpdatePhase cfg ghs gs (diffs, stats)).2.users_up_to_date
        = stats.users_up_to_date + (gs.filter (matchedUpToDate cfg ghs)).length := by
  intro gs
  induction gs with
  | nil => intro diffs stats; simp [userCreateUpdatePhase]
  | cons g rest ih =>
    intro diffs stats
    simp only [userCreateUpdatePhase, List.filter_cons]
    cases h : githubUsersByEmail ghs g.primary_email with
    | none =>
      have hm : matchedUpToDate cfg ghs g = false := by
        unfold matchedUpToDate; rw [h]
      dsimp only
      rw [ih]
      simp [hm]
    | some existing =>
      have hm : matchedUpToDate cfg ghs g = !usersDiffer existing (googleUserToScim cfg g) := by
        unfold matchedUpToDate; rw [h]
      dsimp only
      by_cases hd : usersDiffer existing (googleUserToScim cfg g) = true
      · rw [if_pos hd, ih]
        simp [hm, hd]
      · have hd2 : usersDiffer existing (googleUserToScim cfg g) = false := by
          cases hb : usersDiffer existing (googleUserToScim cfg g)
          · rfl
          · exact absurd hb hd
        rw [if_neg hd, ih]
        simp [hm, hd2]
        omega

theorem userSuspendPhase_upToDate (gmails : List String) :
    ∀ (us : List ScimUser) (diffs : List UserDiff) (stats : SyncStats),
      (userSuspendPhase gmails us (diffs, stats)).2.users_up_to_date
        = stats.users_up_to_date := by
  intro us
  induction us with
  | nil => intro diffs stats; rfl
  | cons u rest ih =>
    intro diffs stats
    simp only [userSuspendPhase]
    by_cases h : (!gmails.contains (getPrimaryEmail u) && u.active) = true
    · rw [if_pos h, ih]
    · rw [if_neg h, ih]

/-- Claim C6: a source user whose primary email matches an existing
target user yields an update operation exactly when the equality
predicate sees a difference in one of the five compared fields
(username, email list, name, active flag, role list); when all five
match, no operation at all is emitted for that user and the up-to-date
counter counts it. -/
theorem calculateUserDiffs_update_iff (cfg : GitHubConfig) (stats : SyncStats)
    (gs : List GoogleUser) (ghs : List ScimUser) (g : GoogleUser) (existing : ScimUser)
    (hmatch : githubUsersByEmail ghs g.primary_email = some existing)
    (hmem : g ∈ gs) :
    ((mkUpdateDiff g existing (googleUserToScim cfg g)
        ∈ (calculateUserDiffs cfg stats gs ghs).1)
      ↔ usersDiffer existing (googleUserToScim cfg g) = true) ∧
    (usersDiffer existing (googleUserToScim cfg g) = false →
      ∀ d ∈ (calculateUserDiffs cfg stats gs ghs).1, d.google_user ≠ some g) ∧
    (∀ e t : ScimUser,
      usersDiffer e t = true ↔
        (e.user_name ≠ t.user_name ∨ e.emails ≠ t.emails ∨ e.name ≠ t.name
          ∨ e.active ≠ t.active ∨ e.roles ≠ t.roles)) ∧
    ((calculateUserDiffs cfg stats gs ghs).2.users_up_to_date
      = stats.users_up_to_date + (gs.filter (matchedUpToDate cfg ghs)).length) := by
  refine ⟨⟨?_, ?_⟩, ?_, ?_, ?_⟩
  · intro hmemdiff
    rw [calculateUserDiffs_fst] at hmemdiff
    rcases List.mem_append.mp hmemdiff with hleft | hright
    · obtain ⟨g2, hg2, hin⟩ := List.mem_flatMap.mp hleft
      have hshape := stepDiffs_shape cfg ghs g2 _ hin
      have hg2eq : g = g2 := by
        have : (mkUpdateDiff g existing (googleUserToScim cfg g)).google_user = some g := rfl
        rw [this] at hshape
        exact Option.some.inj hshape.1
      subst hg2eq
      unfold stepDiffs at hin
      rw [hmatch] at hin
      by_cases hd : usersDiffer existing (googleUserToScim cfg g) = true
      · exact hd
      · simp only [if_neg hd] at hin
        cases hin
    · obtain ⟨u, _, habs⟩ := List.mem_map.mp hright
      have : (mkSuspendDiff u).action = (mkUpdateDiff g existing (googleUserToScim cfg g)).action := by
        rw [habs]
      simp [mkSuspendDiff, mkUpdateDiff] at this
  · intro hd
    rw [calculateUserDiffs_fst]
    refine List.mem_append_left _ ?_
    refine List.mem_flatMap.mpr ⟨g, hmem, ?_⟩
    unfold stepDiffs
    rw [hmatch]
    dsimp only
    rw [if_pos hd]
    exact List.mem_singleton.mpr rfl
  · intro hnd d hdmem
    rw [calculateUserDiffs_fst] at hdmem
    rcases List.mem_append.mp hdmem with hleft | hright
    · obtain ⟨g2, hg2, hin⟩ := List.mem_flatMap.mp hleft
      have hshape := stepDiffs_shape cfg ghs g2 _ hin
      intro hgu
      rw [hgu] at hshape
      have hg2eq : g2 = g := (Option.some.inj hshape.1).symm
      subst hg2eq
      unfold stepDiffs at hin
      rw [hmatch] at hin
      dsimp only at hin
      rw [if_neg (by rw [hnd]; exact Bool.false_ne_true)] at hin
      cases hin
    · obtain ⟨u, _, habs⟩ := List.mem_map.mp hright
      rw [← habs]
      intro hgu
      cases hgu
  · intro e t
    simp only [usersDiffer, Bool.or_eq_true, bne_iff_ne, ne_eq]
    tauto
  · show (userSuspendPhase (googleEmails gs) ghs
      (userCreateUpdatePhase cfg ghs gs ([], stats))).2.users_up_to_date = _
    cases hcu : userCreateUpdatePhase cfg ghs gs ([], stats) with
    | mk d1 s1 =>
      rw [userSuspendPhase_upToDate]
      have := userCreateUpdatePhase_upToDate cfg ghs gs [] stats
      rw [hcu] at this
      exact this

/-- Concrete fixtures for witnesses: a source user and the matching,
field-identical existing target user. -/
def exCfg : GitHubConfig := ⟨[], [], [], none⟩

def exBobG : GoogleUser := ⟨"2", "bob@x.com", "Bob", "B", "Bob B", false, "/Org"⟩

def exBobScim : ScimUser :=
  { googleUserToScim exCfg exBobG with id := some "sb" }

/-- Witness for C6: the concrete matched-and-equal pair is counted
up-to-date and not updated. -/
theorem calculateUserDiffs_update_iff_witness :
    (calculateUserDiffs exCfg {} [exBobG] [exBobScim]).2.users_up_to_date = 1 := by
  have h := calculateUserDiffs_update_iff exCfg {} [exBobG] [exBobScim] exBobG exBobScim
    (by decide) (List.mem_singleton.mpr rfl)
  rw [h.2.2.2]
  decide

/-- Claim C9: role assignment returns exactly one role, with
first-match precedence enterprise-owner > billing-manager >
guest-collaborator > default user. -/
theorem determineUserRoles_precedence (cfg : GitHubConfig) (email : String) :
    (determineUserRoles cfg email).length = 1 ∧
    (email ∈ cfg.enterprise_owners →
      determineUserRoles cfg email = [⟨"enterprise_owner", true⟩]) ∧
    (email ∉ cfg.enterprise_owners → email ∈ cfg.billing_managers →
      determineUserRoles cfg email = [⟨"billing_manager", true⟩]) ∧
    (email ∉ cfg.enterprise_owners → email ∉ cfg.billing_managers →
      email ∈ cfg.guest_collaborators →
      determineUserRoles cfg email = [⟨"guest_collaborator", true⟩]) ∧
    (email ∉ cfg.enterprise_owners → email ∉ cfg.billing_managers →
      email ∉ cfg.guest_collaborators →
      determineUserRoles cfg email = [⟨"user", true⟩]) := by
  refine ⟨?_, ?_, ?_, ?_, ?_⟩
  · by_cases h1 : email ∈ cfg.enterprise_owners
    · simp [determineUserRoles, h1]
    · by_cases h2 : email ∈ cfg.billing_managers
      · simp [determineUserRoles, h1, h2]
      · by_cases h3 : email ∈ cfg.guest_collaborators <;>
          simp [determineUserRoles, h1, h2, h3]
  · intro h1; simp [determineUserRoles, h1]
  · intro h1 h2; simp [determineUserRoles, h1, h2]
  · intro h1 h2 h3; simp [determineUserRoles, h1, h2, h3]
  · intro h1 h2 h3; simp [determineUserRoles, h1, h2, h3]

/-- Witness for C9: an email in both the enterprise-owner and
guest-collaborator tables resolves to enterprise-owner. -/
theorem determineUserRoles_precedence_witness :
    determineUserRoles ⟨["both@x.com"], [], ["both@x.com"], none⟩ "both@x.com"
      = [⟨"enterprise_owner", true⟩] :=
  (determineUserRoles_precedence ⟨["both@x.com"], [], ["both@x.com"], none⟩
    "both@x.com").2.1 (List.mem_singleton.mpr rfl)

/-- Claim C10: primary-email extraction is total — the value of the
first entry whose primary key is truthy, else the first entry's value,
else the empty string — and consequently an active target user with an
empty email list is keyed under the empty string and is suspended
whenever no source user maps to that key. -/
theorem getPrimaryEmail_total_spec :
    (∀ (u : ScimUser) (e : EmailEntry),
        u.emails.find? (fun x => x.primary == some true) = some e →
        getPrimaryEmail u = e.value) ∧
    (∀ (u : ScimUser) (e : EmailEntry) (rest : List EmailEntry),
        u.emails.find? (fun x => x.primary == some true) = none →
        u.emails = e :: rest →
        getPrimaryEmail u = e.value) ∧
    (∀ u : ScimUser, u.emails = [] → getPrimaryEmail u = "") ∧
    (∀ (cfg : GitHubConfig) (stats : SyncStats) (gs : List GoogleUser)
        (ghs : List ScimUser) (u : ScimUser),
        u ∈ ghs → u.emails = [] → u.active = true →
        (googleEmails gs).contains "" = false →
        mkSuspendDiff u ∈ (calculateUserDiffs cfg stats gs ghs).1) := by
  have hempty : ∀ u : ScimUser, u.emails = [] → getPrimaryEmail u = "" := by
    intro u h
    unfold getPrimaryEmail
    rw [h]
    rfl
  refine ⟨?_, ?_, hempty, ?_⟩
  · intro u e h
    unfold getPrimaryEmail
    rw [h]
  · intro u e rest h hemails
    unfold getPrimaryEmail
    rw [h, hemails]
  · intro cfg stats gs ghs u hu hemails hactive hmail
    refine mem_suspend_tail hu ?_ cfg stats
    rw [hempty u hemails, hmail, hactive]
    rfl

/-- Witness for C10: a concrete active target user with no email
entries receives a suspend operation. -/
theorem getPrimaryEmail_total_spec_witness :
    mkSuspendDiff ⟨none, "ghost", [], ⟨none, none, none⟩, true, none, []⟩
      ∈ (calculateUserDiffs ⟨[], [], [], none⟩ {} []
          [⟨none, "ghost", [], ⟨none, none, none⟩, true, none, []⟩]).1 :=
  getPrimaryEmail_total_spec.2.2.2 ⟨[], [], [], none⟩ {} []
    [⟨none, "ghost", [], ⟨none, none, none⟩, true, none, []⟩]
    ⟨none, "ghost", [], ⟨none, none, none⟩, true, none, []⟩
    (List.mem_singleton.mpr rfl) rfl rfl rfl

theorem pyCharSplit_ne_nil (sep : Char) : ∀ l : List Char, pyCharSplit sep l ≠ [] := by
  intro l
  induction l with
  | nil => simp [pyCharSplit]
  | cons c rest ih =>
    unfold pyCharSplit
    by_cases h : c = sep
    · rw [if_pos h]; simp
    · rw [if_neg h]
      cases hr : pyCharSplit sep rest with
      | nil => simp
      | cons g gs => simp

theorem pyCharSplit_headD (sep : Char) :
    ∀ l : List Char, (pyCharSplit sep l).headD [] = l.takeWhile (fun c => c != sep) := by
  intro l
  induction l with
  | nil => rfl
  | cons c rest ih =>
    unfold pyCharSplit
    by_cases h : c = sep
    · rw [if_pos h]
      have : (c != sep) = false := by simp [h]
      simp [List.takeWhile_cons, this]
    · rw [if_neg h]
      cases hr : pyCharSplit sep rest with
      | nil => exact absurd hr (pyCharSplit_ne_nil sep rest)
      | cons g gs =>
        rw [hr] at ih
        simp only [List.headD_cons] at ih
        have hbne : (c != sep) = true := by simp [h]
        simp [List.takeWhile_cons, hbne, ih]

/-- Claim C7 (amended): the engine's mapping path
(`_email_to_username`, used by `_google_user_to_scim`) maps a source
email to the substring before the first `@` with every `.` replaced by
`-`, suffixed with `_{suffix}` when a managed-user suffix is
configured; the separate `ScimUser.from_google_user` mapping path in
`models.py` instead uses the raw local part, with no replacement and no
suffix. -/
theorem emailToUsername_spec (cfg : GitHubConfig) (email : String) (u : GoogleUser) :
    emailToUsername cfg email =
      (match cfg.emu_username_suffix with
        | some suffix =>
          String.mk ((email.data.takeWhile (fun c => c != '@')).map
            (fun c => if c = '.' then '-' else c)) ++ "_" ++ suffix
        | none =>
          String.mk ((email.data.takeWhile (fun c => c != '@')).map
            (fun c => if c = '.' then '-' else c))) ∧
    (ScimUser.fromGoogleUser u).user_name
      = String.mk (u.primary_email.data.takeWhile (fun c => c != '@')) := by
  have hhead : ∀ s : String,
      (pySplit s '@').headD "" = String.mk (s.data.takeWhile (fun c => c != '@')) := by
    intro s
    unfold pySplit
    cases hsp : pyCharSplit '@' s.data with
    | nil => exact absurd hsp (pyCharSplit_ne_nil '@' s.data)
    | cons g gs =>
      have := pyCharSplit_headD '@' s.data
      rw [hsp] at this
      simp only [List.headD_cons] at this
      simp [this]
  constructor
  · unfold emailToUsername
    rw [hhead email]
    cases cfg.emu_username_suffix with
    | none => rfl
    | some suffix => rfl
  · show (pySplit u.primary_email '@').headD "" = _
    exact hhead u.primary_email

/-- Witness for C7 (amended): concrete evaluation of both mapping
paths on a dotted local part, with and without a configured suffix. -/
theorem emailToUsername_spec_witness :
    emailToUsername ⟨[], [], [], some "corp"⟩ "john.doe@company.com" = "john-doe_corp" ∧
    (ScimUser.fromGoogleUser
      ⟨"g1", "john.doe@company.com", "John", "Doe", "John Doe", false, "/Eng"⟩).user_name
      = "john.doe" := by
  have h1 := (emailToUsername_spec ⟨[], [], [], some "corp"⟩ "john.doe@company.com"
    ⟨"g1", "john.doe@company.com", "John", "Doe", "John Doe", false, "/Eng"⟩).1
  have h2 := (emailToUsername_spec ⟨[], [], [], some "corp"⟩ "john.doe@company.com"
    ⟨"g1", "john.doe@company.com", "John", "Doe", "John Doe", false, "/Eng"⟩).2
  rw [h1, h2]
  exact ⟨by decide, by decide⟩

/-- Counterexample for C7 as stated: `ScimUser.from_google_user` is a
mapping path from a source user to a candidate target user whose
username keeps the dot of the local part instead of replacing it with a
hyphen. -/
theorem fromGoogleUser_username_counterexample :
    (ScimUser.fromGoogleUser
      ⟨"google123", "john.doe@company.com", "John", "Doe", "John Doe", false,
        "/Engineering"⟩).user_name = "john.doe" ∧
    pyReplaceChar '.' '-'
      ((pySplit "john.doe@company.com" '@').headD "") = "john-doe" ∧
    ("john.doe" : String) ≠ "john-doe" := by
  refine ⟨by decide, by decide, by decide⟩

/-! Helper observers for the change applicators. -/

/-- The collaborator call one user operation attempts, if any. -/
def userCallOf (d : UserDiff) : Option CallEvent :=
  if d.action == "create" && d.target_scim_user.isSome then
    d.target_scim_user.map (fun t => .createUser t)
  else if d.action == "update" && d.existing_scim_user.isSome && d.target_scim_user.isSome then
    match d.existing_scim_user, d.target_scim_user with
    | some e, some t => some (.updateUser e.id t)
    | _, _ => none
  else if d.action == "suspend" && d.existing_scim_user.isSome then
    d.existing_scim_user.map (fun e => .suspendUser e.id)
  else
    none

/-- The collaborator call one team operation attempts, if any. -/
def teamCallOf (d : TeamDiff) : Option CallEvent :=
  if d.action == "create" && d.target_team.isSome then
    d.target_team.map (fun t => .createGroup t)
  else if d.action == "update" && d.existing_team.isSome && d.target_team.isSome then
    match d.existing_team, d.target_team with
    | some e, some t => some (.updateGroup (pyStrOfOptId e.id) t)
    | _, _ => none
  else
    none

/-- Whether a given collaborator call raises under the given client
behaviour. -/
def callErrors (clients : Clients) : CallEvent → Bool
  | .createUser t =>
    match clients.github_create_user t with
    | .ok _ => false
    | .error _ => true
  | .updateUser i t =>
    match clients.github_update_user i t with
    | .ok _ => false
    | .error _ => true
  | .suspendUser i =>
    match clients.github_suspend_user i with
    | .ok _ => false
    | .error _ => true
  | .createGroup t =>
    match clients.github_create_group t with
    | .ok _ => false
    | .error _ => true
  | .updateGroup i t =>
    match clients.github_update_group i t with
    | .ok _ => false
    | .error _ => true

theorem applyUserStep_snd (clients : Clients) (stats : SyncStats) (d : UserDiff) :
    (applyUserStep clients stats d).2 = (userCallOf d).toList := by
  unfold applyUserStep userCallOf
  repeat' split <;> simp_all

theorem applyUserStep_failed (clients : Clients) (stats : SyncStats) (d : UserDiff) :
    (applyUserStep clients stats d).1.users_failed
      = stats.users_failed
          + (((userCallOf d).toList.filter (callErrors clients)).length) := by
  unfold applyUserStep userCallOf
  repeat' split <;> simp_all [callErrors]

theorem applyTeamStep_snd (clients : Clients) (stats : SyncStats) (d : TeamDiff) :
    (applyTeamStep clients stats d).2 = (teamCallOf d).toList := by
  unfold applyTeamStep teamCallOf
  repeat' split <;> simp_all

theorem applyTeamStep_failed (clients : Clients) (stats : SyncStats) (d : TeamDiff) :
    (applyTeamStep clients stats d).1.teams_failed
      = stats.teams_failed
          + (((teamCallOf d).toList.filter (callErrors clients)).length) := by
  unfold applyTeamStep teamCallOf
  repeat' split <;> simp_all [callErrors]

theorem applyUserChanges_snd (clients : Clients) :
    ∀ (ds : List UserDiff) (stats : SyncStats),
      (applyUserChanges clients stats ds).2 = ds.filterMap userCallOf := by
  intro ds
  induction ds with
  | nil => intro stats; rfl
  | cons d rest ih =>
    intro stats
    simp only [applyUserChanges]
    cases hstep : applyUserStep clients stats d with
    | mk s1 ev =>
      cases happ : applyUserChanges clients s1 rest with
      | mk s2 more =>
        have hev : ev = (userCallOf d).toList := by
          have := applyUserStep_snd clients stats d
          rw [hstep] at this
          exact this
        have hmore : more = rest.filterMap userCallOf := by
          have := ih s1
          rw [happ] at this
          exact this
        simp only [List.filterMap_cons]
        cases hc : userCallOf d with
        | none => simp [hev, hmore, hc]
        | some ev1 => simp [hev, hmore, hc]

theorem applyUserChanges_failed (clients : Clients) :
    ∀ (ds : List UserDiff) (stats : SyncStats),
      (applyUserChanges clients stats ds).1.users_failed
        = stats.users_failed
            + ((ds.filterMap userCallOf).filter (callErrors clients)).length := by
  intro ds
  induction ds with
  | nil => intro stats; simp [applyUserChanges]
  | cons d rest ih =>
    intro stats
    simp only [applyUserChanges]
    cases hstep : applyUserStep clients stats d with
    | mk s1 ev =>
      cases happ : applyUserChanges clients s1 rest with
      | mk s2 more =>
        have h1 : s1.users_failed
            = stats.users_failed + (((userCallOf d).toList.filter (callErrors clients)).length) := by
          have := applyUserStep_failed clients stats d
          rw [hstep] at this
          exact this
        have h2 : s2.users_failed
            = s1.users_failed + ((rest.filterMap userCallOf).filter (callErrors clients)).length := by
          have := ih s1
          rw [happ] at this
          exact this
        simp only [List.filterMap_cons]
        cases hc : userCallOf d with
        | none =>
          rw [hc] at h1
          simp only [Option.toList_none, List.filter_nil, List.length_nil, Nat.add_zero] at h1
          simp [h2, h1]
        | some ev1 =>
          rw [hc] at h1
          simp only [Option.toList_some, List.filter_singleton] at h1
          rw [List.filter_cons]
          by_cases he : callErrors clients ev1 = true
          · rw [if_pos he]
            rw [he] at h1
            simp at h1
            simp [h2, h1]
            omega
          · rw [if_neg he]
            have he2 : callErrors clients ev1 = false := by
              cases hb : callErrors clients ev1
              · rfl
              · exact absurd hb he
            rw [he2] at h1
            simp at h1
            simp [h2, h1]

theorem applyTeamChanges_snd (clients : Clients) :
    ∀ (ds : List TeamDiff) (stats : SyncStats),
      (applyTeamChanges clients stats ds).2 = ds.filterMap teamCallOf := by
  intro ds
  induction ds with
  | nil => intro stats; rfl
  | cons d rest ih =>
    intro stats
    simp only [applyTeamChanges]
    cases hstep : applyTeamStep clients stats d with
    | mk s1 ev =>
      cases happ : applyTeamChanges clients s1 rest with
      | mk s2 more =>
        have hev : ev = (teamCallOf d).toList := by
          have := applyTeamStep_snd clients stats d
          rw [hstep] at this
          exact this
        have hmore : more = rest.filterMap teamCallOf := by
          have := ih s1
          rw [happ] at this
          exact this
        simp only [List.filterMap_cons]
        cases hc : teamCallOf d with
        | none => simp [hev, hmore, hc]
        | some ev1 => simp [hev, hmore, hc]

theorem applyTeamChanges_failed (clients : Clients) :
    ∀ (ds : List TeamDiff) (stats : SyncStats),
      (applyTeamChanges clients stats ds).1.teams_failed
        = stats.teams_failed
            + ((ds.filterMap teamCallOf).filter (callErrors clients)).length := by
  intro ds
  induction ds with
  | nil => intro stats; simp [applyTeamChanges]
  | cons d rest ih =>
    intro stats
    simp only [applyTeamChanges]
    cases hstep : applyTeamStep clients stats d with
    | mk s1 ev =>
      cases happ : applyTeamChanges clients s1 rest with
      | mk s2 more =>
        have h1 : s1.teams_failed
            = stats.teams_failed + (((teamCallOf d).toList.filter (callErrors clients)).length) := by
          have := applyTeamStep_failed clients stats d
          rw [hstep] at this
          exact this
        have h2 : s2.teams_failed
            = s1.teams_failed + ((rest.filterMap teamCallOf).filter (callErrors clients)).length := by
          have := ih s1
          rw [happ] at this
          exact this
        simp only [List.filterMap_cons]
        cases hc : teamCallOf d with
        | none =>
          rw [hc] at h1
          simp only [Option.toList_none, List.filter_nil, List.length_nil, Nat.add_zero] at h1
          simp [h2, h1]
        | some ev1 =>
          rw [hc] at h1
          simp only [Option.toList_some, List.filter_singleton] at h1
          rw [List.filter_cons]
          by_cases he : callErrors clients ev1 = true
          · rw [if_pos he]
            rw [he] at h1
            simp at h1
            simp [h2, h1]
            omega
          · rw [if_neg he]
            have he2 : callErrors clients ev1 = false := by
              cases hb : callErrors clients ev1
              · rfl
              · exact absurd hb he
            rw [he2] at h1
            simp at h1
            simp [h2, h1]

/-- Client fixture for the partial-failure example: creating the user
named `user-b` raises an opaque fault, every other call succeeds. -/
def exApplyClients : Clients where
  google_get_all_users := fun _ _ => .ok []
  google_get_ou := fun _ => .error (.valueError "no such ou")
  github_get_users := .ok []
  github_get_groups := .ok []
  github_create_user := fun t =>
    if t.user_name == "user-b" then .error (.otherExc "API Error") else .ok t
  github_update_user := fun _ t => .ok t
  github_suspend_user := fun _ => .error (.otherExc "absent")
  github_create_group := fun t => .ok t
  github_update_group := fun _ t => .ok t

/-- Minimal SCIM user fixture. -/
def exScim (n : String) : ScimUser :=
  ⟨none, n, [], ⟨none, none, none⟩, true, none, []⟩

/-- Create-operation fixture. -/
def exCreateDiff (n : String) : UserDiff :=
  ⟨"create", none, none, some (exScim n)⟩

/-- Claim C3: the user change applicator processes each operation in
order, records exactly one attempted collaborator call per well-formed
operation (so a fault never stops the batch), and increments the failed
counter once per faulting call; concretely, of three create operations
whose second faults, two succeed, one is counted failed and the third
is still attempted. -/
theorem applyUserChanges_isolation :
    (∀ (clients : Clients) (stats : SyncStats) (ds : List UserDiff),
      (applyUserChanges clients stats ds).2 = ds.filterMap userCallOf ∧
      (applyUserChanges clients stats ds).1.users_failed
        = stats.users_failed
            + ((ds.filterMap userCallOf).filter (callErrors clients)).length) ∧
    ((applyUserChanges exApplyClients {}
        [exCreateDiff "user-a", exCreateDiff "user-b", exCreateDiff "user-c"]).1.users_created
        = 2 ∧
      (applyUserChanges exApplyClients {}
        [exCreateDiff "user-a", exCreateDiff "user-b", exCreateDiff "user-c"]).1.users_failed
        = 1 ∧
      (applyUserChanges exApplyClients {}
        [exCreateDiff "user-a", exCreateDiff "user-b", exCreateDiff "user-c"]).2
        = [.createUser (exScim "user-a"), .createUser (exScim "user-b"),
            .createUser (exScim "user-c")]) := by
  refine ⟨fun clients stats ds =>
    ⟨applyUserChanges_snd clients ds stats, applyUserChanges_failed clients ds stats⟩,
    by decide, by decide, by decide⟩

/-- Team fixture. -/
def nsTeam (n : String) : GitHubTeam :=
  ⟨none, n, n, none, "closed", []⟩

/-- Team create-operation fixture. -/
def nsCreateTeamDiff (n : String) : TeamDiff :=
  ⟨"create", none, none, some (nsTeam n)⟩

/-- Client fixture whose team creation always raises the not-supported
condition. -/
def nsClients : Clients where
  google_get_all_users := fun _ _ => .ok []
  google_get_ou := fun _ => .error (.valueError "no such ou")
  github_get_users := .ok []
  github_get_groups := .ok []
  github_create_user := fun t => .ok t
  github_update_user := fun _ t => .ok t
  github_suspend_user := fun _ => .error (.otherExc "absent")
  github_create_group := fun _ => .error (.notSupported "SCIM groups not supported")
  github_update_group := fun _ _ => .error (.notSupported "SCIM groups not supported")

/-- Counterexample for C2 as stated: with two team create operations
against a collaborator whose create call raises the not-supported
condition, the first operation's fault does not disable the rest of the
batch — the second operation is still attempted (its call appears in
the call log) and both are counted failed. -/
theorem applyTeamChanges_notSupported_counterexample :
    nsClients.github_create_group (nsTeam "alpha")
      = .error (.notSupported "SCIM groups not supported") ∧
    (applyTeamChanges nsClients {}
        [nsCreateTeamDiff "alpha", nsCreateTeamDiff "beta"]).2
      = [.createGroup (nsTeam "alpha"), .createGroup (nsTeam "beta")] ∧
    (applyTeamChanges nsClients {}
        [nsCreateTeamDiff "alpha", nsCreateTeamDiff "beta"]).1.teams_failed = 2 :=
  ⟨rfl, by decide, by decide⟩

/-- Whether a call event is one of the two team mutations. -/
def CallEvent.isTeamCall : CallEvent → Bool
  | .createGroup _ => true
  | .updateGroup _ _ => true
  | _ => false

theorem applyUserChanges_no_team_events (clients : Clients) (stats : SyncStats)
    (ds : List UserDiff) :
    ∀ ev ∈ (applyUserChanges clients stats ds).2, ev.isTeamCall = false := by
  intro ev hev
  rw [applyUserChanges_snd] at hev
  obtain ⟨d, _, hd⟩ := List.mem_filterMap.mp hev
  unfold userCallOf at hd
  repeat' split at hd
  all_goals
    first
      | (rw [Option.map_eq_some'] at hd; obtain ⟨a, -, rfl⟩ := hd; rfl)
      | (injection hd with h; subst h; simp [CallEvent.isTeamCall])
      | cases hd

/-- Client fixture whose team fetch raises the not-supported
condition. -/
def nsFetchClients : Clients where
  google_get_all_users := fun _ _ => .ok []
  google_get_ou := fun _ => .error (.valueError "no such ou")
  github_get_users := .ok []
  github_get_groups := .error (.notSupported "teams not supported")
  github_create_user := fun t => .ok t
  github_update_user := fun _ t => .ok t
  github_suspend_user := fun _ => .error (.otherExc "absent")
  github_create_group := fun t => .ok t
  github_update_group := fun _ t => .ok t

/-- Claim C2 (amended): a team operation whose collaborator call raises
the not-supported condition has its failed counter incremented and the
applicator still attempts every remaining team operation (the condition
is handled per-operation inside the apply loop); team operations are
disabled for the remainder of the run only when the condition is raised
outside that loop — e.g. by the team fetch — in which case synchronize
catches it once and the run carries no team operations and makes no
team-mutating call. -/
theorem applyTeamChanges_notSupported_continues :
    (∀ (clients : Clients) (stats : SyncStats) (ds : List TeamDiff),
      (applyTeamChanges clients stats ds).2 = ds.filterMap teamCallOf ∧
      (applyTeamChanges clients stats ds).1.teams_failed
        = stats.teams_failed
            + ((ds.filterMap teamCallOf).filter (callErrors clients)).length) ∧
    (∀ (clients : Clients) (sc : SyncConfig) (cfg : GitHubConfig)
        (ous inds : List String) (dry : Bool) (m : String),
      sc.create_teams = true →
      clients.github_get_groups = .error (.notSupported m) →
      (synchronize clients sc cfg ous inds dry).1.team_diffs = [] ∧
      (∀ ev ∈ (synchronize clients sc cfg ous inds dry).2,
        ev.isTeamCall = false)) := by
  refine ⟨fun clients stats ds =>
    ⟨applyTeamChanges_snd clients ds stats, applyTeamChanges_failed clients ds stats⟩, ?_⟩
  intro clients sc cfg ous inds dry m hct hgg
  unfold synchronize
  by_cases hval : (ous.isEmpty && inds.isEmpty) = true
  · rw [if_pos hval]
    exact ⟨rfl, fun ev hev => absurd hev (List.not_mem_nil ev)⟩
  · rw [if_neg hval]
    cases hga : clients.google_get_all_users ous inds with
    | error e =>
      exact ⟨rfl, fun ev hev => absurd hev (List.not_mem_nil ev)⟩
    | ok raw =>
      cases hgu : clients.github_get_users with
      | error e =>
        exact ⟨rfl, fun ev hev => absurd hev (List.not_mem_nil ev)⟩
      | ok ghusers =>
        dsimp only
        by_cases hdry : dry = true
        · rw [if_pos hdry, if_pos hct, hgg]
          exact ⟨rfl, fun ev hev => absurd hev (List.not_mem_nil ev)⟩
        · rw [if_neg hdry, if_pos hct, hgg]
          exact ⟨rfl, fun ev hev => applyUserChanges_no_team_events clients _ _ ev hev⟩

/-- Witness for C2 (amended): a concrete run whose team fetch raises
the not-supported condition completes with no team operations. -/
theorem applyTeamChanges_notSupported_continues_witness :
    (synchronize nsFetchClients ⟨false, true, true⟩ ⟨[], [], [], none⟩
        ["/Org"] [] false).1.team_diffs = [] :=
  (applyTeamChanges_notSupported_continues.2 nsFetchClients ⟨false, true, true⟩
    ⟨[], [], [], none⟩ ["/Org"] [] false "teams not supported" rfl rfl).1

/-! Stats-irrelevance of the diff lists: the emitted operations do not
depend on the incoming counter values. -/

theorem flattenedDiffLoop_fst_stats (sc : SyncConfig) (gt : List GitHubTeam) :
    ∀ (entries : List (String × List String)) (diffs : List TeamDiff)
      (s1 s2 : SyncStats),
      (flattenedDiffLoop sc gt entries (diffs, s1)).1
        = (flattenedDiffLoop sc gt entries (diffs, s2)).1 := by
  intro entries
  induction entries with
  | nil => intros; rfl
  | cons e rest ih =>
    intro diffs s1 s2
    obtain ⟨slug, members⟩ := e
    simp only [flattenedDiffLoop]
    cases h : githubTeamsBySlug gt slug with
    | none =>
      dsimp only
      by_cases hc : sc.create_teams = true
      · rw [if_pos hc, if_pos hc]; exact ih _ _ _
      · rw [if_neg hc, if_neg hc]; exact ih _ _ _
    | some ex =>
      dsimp only
      by_cases hd : teamsDiffer ex (flattenedTargetTeam slug members) = true
      · rw [if_pos hd, if_pos hd]; exact ih _ _ _
      · rw [if_neg hd, if_neg hd]; exact ih _ _ _

theorem calculateFlattenedTeamDiffs_fst_stats (sc : SyncConfig) (cfg : GitHubConfig)
    (s1 s2 : SyncStats) (gu : List GoogleUser) (gt : List GitHubTeam) :
    (calculateFlattenedTeamDiffs sc cfg s1 gu gt).1
      = (calculateFlattenedTeamDiffs sc cfg s2 gu gt).1 :=
  flattenedDiffLoop_fst_stats sc gt (teamMembershipsOf cfg gu) [] s1 s2

theorem teamDiffLoop_fst_stats (sc : SyncConfig) (cfg : GitHubConfig)
    (gt : List GitHubTeam) (gu : List GoogleUser) :
    ∀ (ous : List GoogleOU) (diffs : List TeamDiff) (s1 s2 : SyncStats),
      (teamDiffLoop sc cfg gt gu ous (diffs, s1)).1
        = (teamDiffLoop sc cfg gt gu ous (diffs, s2)).1 := by
  intro ous
  induction ous with
  | nil => intros; rfl
  | cons ou rest ih =>
    intro diffs s1 s2
    simp only [teamDiffLoop]
    cases h : githubTeamsBySlug gt (ouToTeamSlug ou) with
    | none =>
      dsimp only
      by_cases hc : sc.create_teams = true
      · rw [if_pos hc, if_pos hc]; exact ih _ _ _
      · rw [if_neg hc, if_neg hc]; exact ih _ _ _
    | some ex =>
      dsimp only
      by_cases hd : teamsDiffer ex
          { id := none
            name := ouToTeamSlug ou
            slug := ouToTeamSlug ou
            description := ou.description
            privacy := "closed"
            members := ouGithubMembers cfg gu ou.user_emails } = true
      · rw [if_pos hd, if_pos hd]; exact ih _ _ _
      · rw [if_neg hd, if_neg hd]; exact ih _ _ _

theorem calculateTeamDiffs_fst_stats (sc : SyncConfig) (cfg : GitHubConfig)
    (s1 s2 : SyncStats) (ous : List GoogleOU) (gt : List GitHubTeam)
    (gu : List GoogleUser) :
    (calculateTeamDiffs sc cfg s1 ous gt gu).1
      = (calculateTeamDiffs sc cfg s2 ous gt gu).1 :=
  teamDiffLoop_fst_stats sc cfg gt gu ous [] s1 s2

/-- Claim C5: a dry run performs no mutating call on the target client
(the recorded call log is empty) and both diff lists of its result are
identical in content and order to those of the applying run on the same
inputs. -/
theorem synchronize_dry_run_pure (clients : Clients) (sc : SyncConfig)
    (cfg : GitHubConfig) (ous inds : List String) :
    (synchronize clients sc cfg ous inds true).2 = [] ∧
    (synchronize clients sc cfg ous inds true).1.user_diffs
      = (synchronize clients sc cfg ous inds false).1.user_diffs ∧
    (synchronize clients sc cfg ous inds true).1.team_diffs
      = (synchronize clients sc cfg ous inds false).1.team_diffs := by
  unfold synchronize
  by_cases hval : (ous.isEmpty && inds.isEmpty) = true
  · rw [if_pos hval, if_pos hval]
    exact ⟨rfl, rfl, rfl⟩
  · rw [if_neg hval, if_neg hval]
    cases hga : clients.google_get_all_users ous inds with
    | error e => exact ⟨rfl, rfl, rfl⟩
    | ok raw =>
      dsimp only
      cases hgu : clients.github_get_users with
      | error e => exact ⟨rfl, rfl, rfl⟩
      | ok ghusers =>
        dsimp only
        by_cases hct : sc.create_teams = true
        · rw [if_pos hct, if_pos hct]
          cases hgg : clients.github_get_groups with
          | error e => cases e <;> exact ⟨rfl, rfl, rfl⟩
          | ok ghteams =>
            dsimp only
            by_cases hfl : sc.flatten_ous = true
            · rw [if_pos hfl, if_pos hfl]
              refine ⟨rfl, rfl, ?_⟩
              dsimp only
              exact calculateFlattenedTeamDiffs_fst_stats sc cfg _ _ _ _
            · rw [if_neg hfl, if_neg hfl]
              cases hou : getGoogleOus clients ous [] with
              | error e => cases e <;> exact ⟨rfl, rfl, rfl⟩
              | ok gous =>
                dsimp only
                refine ⟨rfl, rfl, ?_⟩
                exact calculateTeamDiffs_fst_stats sc cfg _ _ _ _ _
        · rw [if_neg hct, if_neg hct]
          exact ⟨rfl, rfl, rfl⟩

/-- Claim C4: the orchestrator never propagates a fault — it always
returns a result; a result is unsuccessful exactly when it carries an
error message, and at each fault-injection point (scope validation, the
source fetch, the target user fetch, the target team fetch) the escaped
fault is converted into a failure result carrying the fault's message
and the statistics accumulated up to that point. -/
theorem synchronize_boundary (clients : Clients) (sc : SyncConfig)
    (cfg : GitHubConfig) (ous inds : List String) (dry : Bool) :
    ((synchronize clients sc cfg ous inds dry).1.success = false ↔
      ∃ msg, (synchronize clients sc cfg ous inds dry).1.error = some msg) ∧
    (ous = [] → inds = [] →
      (synchronize clients sc cfg ous inds dry).1
        = { success := false, user_diffs := [], team_diffs := [], stats := {},
            dry_run := dry,
            error := some "No OUs or individual users specified for synchronization" }) ∧
    (∀ e : Exc, ¬(ous.isEmpty && inds.isEmpty) = true →
      clients.google_get_all_users ous inds = .error e →
      (synchronize clients sc cfg ous inds dry).1
        = { success := false, user_diffs := [], team_diffs := [], stats := {},
            dry_run := dry, error := some e.message }) ∧
    (∀ (e : Exc) (raw : List GoogleUser), ¬(ous.isEmpty && inds.isEmpty) = true →
      clients.google_get_all_users ous inds = .ok raw →
      clients.github_get_users = .error e →
      (synchronize clients sc cfg ous inds dry).1
        = { success := false, user_diffs := [], team_diffs := [],
            stats := (filterSyncUsers {} raw).2, dry_run := dry,
            error := some e.message }) ∧
    (∀ (msg : String) (raw : List GoogleUser) (ghusers : List ScimUser),
      ¬(ous.isEmpty && inds.isEmpty) = true →
      sc.create_teams = true →
      clients.google_get_all_users ous inds = .ok raw →
      clients.github_get_users = .ok ghusers →
      clients.github_get_groups = .error (.otherExc msg) →
      (synchronize clients sc cfg ous inds dry).1
        = { success := false, user_diffs := [], team_diffs := [],
            stats :=
              (if dry = true then
                  ((calculateUserDiffs cfg (filterSyncUsers {} raw).2
                      (filterSyncUsers {} raw).1 ghusers).2, ([] : List CallEvent))
                else
                  applyUserChanges clients
                    (calculateUserDiffs cfg (filterSyncUsers {} raw).2
                      (filterSyncUsers {} raw).1 ghusers).2
                    (calculateUserDiffs cfg (filterSyncUsers {} raw).2
                      (filterSyncUsers {} raw).1 ghusers).1).1,
            dry_run := dry, error := some msg }) := by
  refine ⟨?_, ?_, ?_, ?_, ?_⟩
  · unfold synchronize
    by_cases hval : (ous.isEmpty && inds.isEmpty) = true
    · rw [if_pos hval]; simp
    · rw [if_neg hval]
      cases hga : clients.google_get_all_users ous inds with
      | error e => simp
      | ok raw =>
        dsimp only
        cases hgu : clients.github_get_users with
        | error e => simp
        | ok ghusers =>
          dsimp only
          by_cases hct : sc.create_teams = true
          · rw [if_pos hct]
            cases hgg : clients.github_get_groups with
            | error e => cases e <;> simp
            | ok ghteams =>
              dsimp only
              by_cases hfl : sc.flatten_ous = true
              · rw [if_pos hfl]; simp
              · rw [if_neg hfl]
                cases hou : getGoogleOus clients ous [] with
                | error e => cases e <;> simp
                | ok gous => simp
          · rw [if_neg hct]; simp
  · intro h1 h2
    unfold synchronize
    rw [if_pos (by rw [h1, h2]; rfl)]
  · intro e hval hga
    unfold synchronize
    rw [if_neg hval, hga]
  · intro e raw hval hga hgu
    unfold synchronize
    rw [if_neg hval, hga]
    dsimp only
    rw [hgu]
  · intro msg raw ghusers hval hct hga hgu hgg
    unfold synchronize
    rw [if_neg hval, hga]
    dsimp only
    rw [hgu]
    dsimp only
    rw [if_pos hct, hgg]
    rfl

/-- Client fixture whose target user fetch raises an opaque fault. -/
def c4Clients : Clients where
  google_get_all_users := fun _ _ => .ok []
  google_get_ou := fun _ => .error (.valueError "no such ou")
  github_get_users := .error (.otherExc "GitHub API error")
  github_get_groups := .ok []
  github_create_user := fun t => .ok t
  github_update_user := fun _ t => .ok t
  github_suspend_user := fun _ => .error (.otherExc "absent")
  github_create_group := fun t => .ok t
  github_update_group := fun _ t => .ok t

/-- Witness for C4: a run whose target user fetch faults returns a
failure result carrying the fault message and the pre-fault stats. -/
theorem synchronize_boundary_witness :
    (synchronize c4Clients ⟨false, true, true⟩ ⟨[], [], [], none⟩ ["/Org"] [] false).1
      = { success := false, user_diffs := [], team_diffs := [],
          stats := (filterSyncUsers {} []).2, dry_run := false,
          error := some "GitHub API error" } :=
  (synchronize_boundary c4Clients ⟨false, true, true⟩ ⟨[], [], [], none⟩
      ["/Org"] [] false).2.2.2.1 (.otherExc "GitHub API error") []
    (by decide) rfl rfl

/-! Observers for the flattened team-membership map. -/

/-- Lookup of one group key in the membership map (first entry wins,
matching dict semantics — construction keeps keys unique). -/
def lookupMembers : List (String × List String) → String → Option (List String)
  | [], _ => none
  | (s, mems) :: rest, slug => if s = slug then some mems else lookupMembers rest slug

/-- Membership of a username in one group's member set. -/
def MemberOf (m : List (String × List String)) (slug username : String) : Prop :=
  username ∈ (lookupMembers m slug).getD []

instance (m : List (String × List String)) (slug username : String) :
    Decidable (MemberOf m slug username) := by
  unfold MemberOf
  infer_instance

/-- The group keys of the membership map. -/
def membershipKeys (m : List (String × List String)) : List String :=
  m.map Prod.fst

theorem lookupMembers_addMembership :
    ∀ (m : List (String × List String)) (s n s2 : String),
      lookupMembers (addMembership m s n) s2
        = if s = s2 then
            some (match lookupMembers m s with
              | some mems => if mems.contains n then mems else mems ++ [n]
              | none => [n])
          else lookupMembers m s2 := by
  intro m
  induction m with
  | nil =>
    intro s n s2
    by_cases h : s = s2 <;> simp [addMembership, lookupMembers, h]
  | cons e rest ih =>
    intro s n s2
    obtain ⟨ks, mems⟩ := e
    unfold addMembership
    by_cases hk : ks = s
    · rw [if_pos hk]
      by_cases h2 : s = s2
      · rw [if_pos h2]
        simp [lookupMembers, hk, h2, hk ▸ h2]
      · rw [if_neg h2]
        have hks2 : ¬ks = s2 := by rw [hk]; exact h2
        simp [lookupMembers, hks2, h2]
    · rw [if_neg hk]
      by_cases h2 : s = s2
      · rw [if_pos h2]
        have hks2 : ¬ks = s2 := by rw [← h2]; exact hk
        simp only [lookupMembers, if_neg hks2, if_neg hk]
        have hih := ih s n s2
        rw [if_pos h2] at hih
        rw [hih, h2]
      · rw [if_neg h2]
        by_cases hks2 : ks = s2
        · simp [lookupMembers, hks2]
        · simp only [lookupMembers, if_neg hks2]
          have hih := ih s n s2
          rw [if_neg h2] at hih
          exact hih

theorem memberOf_addMembership (m : List (String × List String)) (s n s2 n2 : String) :
    MemberOf (addMembership m s n) s2 n2 ↔ (MemberOf m s2 n2 ∨ (s2 = s ∧ n2 = n)) := by
  unfold MemberOf
  rw [lookupMembers_addMembership]
  by_cases h : s = s2
  · rw [if_pos h]
    subst h
    cases hl : lookupMembers m s with
    | none => simp
    | some mems =>
      dsimp only
      by_cases hc : mems.contains n = true
      · rw [if_pos hc]
        simp only [Option.getD_some]
        constructor
        · exact fun hm => Or.inl hm
        · rintro (hm | ⟨-, rfl⟩)
          · exact hm
          · simpa using hc
      · rw [if_neg hc]
        simp only [Option.getD_some]
        rw [List.mem_append, List.mem_singleton]
        tauto
  · rw [if_neg h]
    constructor
    · exact Or.inl
    · rintro (hm | ⟨rfl, -⟩)
      · exact hm
      · exact absurd rfl h

theorem mem_keys_addMembership :
    ∀ (m : List (String × List String)) (s n s2 : String),
      s2 ∈ membershipKeys (addMembership m s n) ↔ (s2 ∈ membershipKeys m ∨ s2 = s) := by
  intro m
  induction m with
  | nil => intro s n s2; simp [addMembership, membershipKeys]
  | cons e rest ih =>
    intro s n s2
    obtain ⟨ks, mems⟩ := e
    unfold addMembership
    by_cases h : ks = s
    · rw [if_pos h]
      simp [membershipKeys, h]
      tauto
    · rw [if_neg h]
      simp only [membershipKeys, List.map_cons, List.mem_cons]
      rw [show (addMembership rest s n).map Prod.fst = membershipKeys (addMembership rest s n) from rfl]
      rw [ih]
      simp [membershipKeys]
      tauto

theorem nodup_keys_addMembership (m : List (String × List String)) (s n : String)
    (h : (membershipKeys m).Nodup) :
    (membershipKeys (addMembership m s n)).Nodup := by
  induction m with
  | nil => simp [addMembership, membershipKeys]
  | cons e rest ih =>
    obtain ⟨ks, mems⟩ := e
    unfold addMembership
    by_cases hk : ks = s
    · rw [if_pos hk]
      simpa [membershipKeys] using h
    · rw [if_neg hk]
      simp only [membershipKeys, List.map_cons, List.nodup_cons] at h ⊢
      refine ⟨?_, ih h.2⟩
      intro habs
      rw [show (addMembership rest s n).map Prod.fst = membershipKeys (addMembership rest s n) from rfl,
        mem_keys_addMembership] at habs
      rcases habs with habs | habs
      · exact h.1 (by simpa [membershipKeys] using habs)
      · exact hk habs

theorem memberOf_foldl_add (n : String) :
    ∀ (slugs : List String) (m : List (String × List String)) (s2 n2 : String),
      MemberOf (slugs.foldl (fun acc slug => addMembership acc slug n) m) s2 n2 ↔
        (MemberOf m s2 n2 ∨ (s2 ∈ slugs ∧ n2 = n)) := by
  intro slugs
  induction slugs with
  | nil => intro m s2 n2; simp
  | cons s slugs ih =>
    intro m s2 n2
    simp only [List.foldl_cons]
    rw [ih, memberOf_addMembership]
    simp only [List.mem_cons]
    tauto

theorem keys_foldl_add (n : String) :
    ∀ (slugs : List String) (m : List (String × List String)) (s2 : String),
      s2 ∈ membershipKeys (slugs.foldl (fun acc slug => addMembership acc slug n) m) ↔
        (s2 ∈ membershipKeys m ∨ s2 ∈ slugs) := by
  intro slugs
  induction slugs with
  | nil => intro m s2; simp
  | cons s slugs ih =>
    intro m s2
    simp only [List.foldl_cons]
    rw [ih, mem_keys_addMembership]
    simp only [List.mem_cons]
    tauto

theorem nodup_keys_foldl_add (n : String) :
    ∀ (slugs : List String) (m : List (String × List String)),
      (membershipKeys m).Nodup →
      (membershipKeys (slugs.foldl (fun acc slug => addMembership acc slug n) m)).Nodup := by
  intro slugs
  induction slugs with
  | nil => intro m h; exact h
  | cons s slugs ih =>
    intro m h
    simp only [List.foldl_cons]
    exact ih _ (nodup_keys_addMembership m s n h)

theorem memberOf_teamMemberships_aux (cfg : GitHubConfig) :
    ∀ (users : List GoogleUser) (m : List (String × List String)) (s2 n2 : String),
      MemberOf
          (users.foldl
            (fun m2 u =>
              (userTeamSlugs u).foldl
                (fun acc slug => addMembership acc slug (emailToUsername cfg u.primary_email))
                m2)
            m) s2 n2 ↔
        (MemberOf m s2 n2 ∨
          ∃ u ∈ users, n2 = emailToUsername cfg u.primary_email ∧ s2 ∈ userTeamSlugs u) := by
  intro users
  induction users with
  | nil => intro m s2 n2; simp
  | cons u users ih =>
    intro m s2 n2
    simp only [List.foldl_cons]
    rw [ih, memberOf_foldl_add]
    simp only [List.mem_cons]
    constructor
    · rintro ((hm | ⟨hs, rfl⟩) | ⟨v, hv, rfl, hs⟩)
      · exact Or.inl hm
      · exact Or.inr ⟨u, Or.inl rfl, rfl, hs⟩
      · exact Or.inr ⟨v, Or.inr hv, rfl, hs⟩
    · rintro (hm | ⟨v, hv | hv, rfl, hs⟩)
      · exact Or.inl (Or.inl hm)
      · subst hv; exact Or.inl (Or.inr ⟨hs, rfl⟩)
      · exact Or.inr ⟨v, hv, rfl, hs⟩

theorem keys_teamMemberships_aux (cfg : GitHubConfig) :
    ∀ (users : List GoogleUser) (m : List (String × List String)) (s2 : String),
      s2 ∈ membershipKeys
          (users.foldl
            (fun m2 u =>
              (userTeamSlugs u).foldl
                (fun acc slug => addMembership acc slug (emailToUsername cfg u.primary_email))
                m2)
            m) ↔
        (s2 ∈ membershipKeys m ∨ ∃ u ∈ users, s2 ∈ userTeamSlugs u) := by
  intro users
  induction users with
  | nil => intro m s2; simp
  | cons u users ih =>
    intro m s2
    simp only [List.foldl_cons]
    rw [ih, keys_foldl_add]
    simp only [List.mem_cons]
    constructor
    · rintro ((hm | hs) | ⟨v, hv, hs⟩)
      · exact Or.inl hm
      · exact Or.inr ⟨u, Or.inl rfl, hs⟩
      · exact Or.inr ⟨v, Or.inr hv, hs⟩
    · rintro (hm | ⟨v, hv | hv, hs⟩)
      · exact Or.inl (Or.inl hm)
      · subst hv; exact Or.inl (Or.inr hs)
      · exact Or.inr ⟨v, hv, hs⟩

theorem nodup_keys_teamMemberships_aux (cfg : GitHubConfig) :
    ∀ (users : List GoogleUser) (m : List (String × List String)),
      (membershipKeys m).Nodup →
      (membershipKeys
          (users.foldl
            (fun m2 u =>
              (userTeamSlugs u).foldl
                (fun acc slug => addMembership acc slug (emailToUsername cfg u.primary_email))
                m2)
            m)).Nodup := by
  intro users
  induction users with
  | nil => intro m h; exact h
  | cons u users ih =>
    intro m h
    simp only [List.foldl_cons]
    exact ih _ (nodup_keys_foldl_add _ _ m h)

/-- Coverage fixtures: three users in nested organisational units. -/
def c8u1 : GoogleUser := ⟨"1", "alice@x.com", "A", "A", "A A", false, "/Org/Engineering/Backend"⟩

def c8u2 : GoogleUser := ⟨"2", "bob@x.com", "B", "B", "B B", false, "/Org/Engineering/Frontend"⟩

def c8u3 : GoogleUser := ⟨"3", "carol@x.com", "C", "C", "C C", false, "/Org/Marketing"⟩

/-- Claim C8 (amended): in path-flattening mode the membership map has
exactly one entry per slugified non-root path segment occurring in any
user's path (duplicate-free keys, characterised by segment occurrence);
a username is a member of a group exactly when some user mapping to
that username has the group's segment in its own path — so when mapped
usernames are pairwise distinct, each user's username is a member of
exactly the groups of its own path below the root.  The concrete
three-path example yields exactly {engineering, backend, frontend,
marketing}, with backend containing only the first user and marketing
only the third. -/
theorem teamMemberships_flattening (cfg : GitHubConfig) (users : List GoogleUser) :
    (membershipKeys (teamMembershipsOf cfg users)).Nodup ∧
    (∀ s, s ∈ membershipKeys (teamMembershipsOf cfg users) ↔
      ∃ u ∈ users, s ∈ userTeamSlugs u) ∧
    (∀ s n, MemberOf (teamMembershipsOf cfg users) s n ↔
      ∃ u ∈ users, n = emailToUsername cfg u.primary_email ∧ s ∈ userTeamSlugs u) ∧
    (∀ u ∈ users,
      (∀ v ∈ users,
        emailToUsername cfg v.primary_email = emailToUsername cfg u.primary_email → v = u) →
      ∀ s, (MemberOf (teamMembershipsOf cfg users) s
              (emailToUsername cfg u.primary_email) ↔ s ∈ userTeamSlugs u)) ∧
    (membershipKeys (teamMembershipsOf exCfg [c8u1, c8u2, c8u3])
        = ["engineering", "backend", "frontend", "marketing"] ∧
      lookupMembers (teamMembershipsOf exCfg [c8u1, c8u2, c8u3]) "backend"
        = some [emailToUsername exCfg c8u1.primary_email] ∧
      lookupMembers (teamMembershipsOf exCfg [c8u1, c8u2, c8u3]) "marketing"
        = some [emailToUsername exCfg c8u3.primary_email]) := by
  refine ⟨?_, ?_, ?_, ?_, by decide, by decide, by decide⟩
  · exact nodup_keys_teamMemberships_aux cfg users [] (by simp [membershipKeys])
  · intro s
    unfold teamMembershipsOf
    rw [keys_teamMemberships_aux]
    simp [membershipKeys]
  · intro s n
    unfold teamMembershipsOf
    rw [memberOf_teamMemberships_aux]
    simp [MemberOf, lookupMembers]
  · intro u hu hinj s
    constructor
    · intro hm
      unfold teamMembershipsOf at hm
      rw [memberOf_teamMemberships_aux] at hm
      rcases hm with hm | ⟨v, hv, heq, hs⟩
      · simp [MemberOf, lookupMembers] at hm
      · have : v = u := hinj v hv heq.symm
        subst this
        exact hs
    · intro hs
      unfold teamMembershipsOf
      rw [memberOf_teamMemberships_aux]
      exact Or.inr ⟨u, hu, rfl, hs⟩

/-- Witness for C8 (amended): with the three distinct-username coverage
users, the first user's mapped username is a member of `backend`. -/
theorem teamMemberships_flattening_witness :
    MemberOf (teamMembershipsOf exCfg [c8u1, c8u2, c8u3]) "backend"
      (emailToUsername exCfg c8u1.primary_email) :=
  ((teamMemberships_flattening exCfg [c8u1, c8u2, c8u3]).2.2.2.1 c8u1
    (by decide) (by decide) "backend").mpr (by decide)

/-- Username-collision fixtures: two distinct users whose emails map to
the same username. -/
def c8CollA : GoogleUser := ⟨"a1", "john.doe@a.com", "J", "D", "J D", false, "/Org/Engineering"⟩

def c8CollB : GoogleUser := ⟨"b1", "john-doe@b.com", "J", "D", "J D", false, "/Org/Marketing"⟩

/-- Counterexample for C8 as stated: with two users whose mapped
usernames collide, the first user's mapped username becomes a member of
the `marketing` group although `marketing` is not a segment of the
first user's own path. -/
theorem flattening_own_path_counterexample :
    emailToUsername exCfg c8CollA.primary_email
      = emailToUsername exCfg c8CollB.primary_email ∧
    "marketing" ∉ userTeamSlugs c8CollA ∧
    MemberOf (teamMembershipsOf exCfg [c8CollA, c8CollB]) "marketing"
      (emailToUsername exCfg c8CollA.primary_email) := by
  refine ⟨by decide, by decide, by decide⟩

end G2G
